import Mathlib

/-!
# Verification of the xrd-rust powder-diffraction core

A shallow embedding of the XRD pattern calculator.  The computational core
(the `xrd_calculator_rust` native module re-exported by
`src/python/xrd_rust_calculator/__init__.py` and driven by the example
scripts) is modelled from the specification: machine reals become exact
rationals, and the transcendental evaluations (square root, exponential,
trigonometric functions, arcsine) are abstracted into a `NumericModel`
parameter, so every theorem below holds for every realization of those
functions.  All list-processing, validation, lookup, enumeration, merging,
filtering and rescaling logic is embedded concretely and executably.
-/

namespace XRD

/-- A 3-vector of rationals (a lattice row or a reciprocal-lattice point). -/
abbrev Vec3 : Type := ℚ × ℚ × ℚ

/-- An integer Miller-index triple (h, k, l). -/
abbrev Triple : Type := ℤ × ℤ × ℤ

/-- Dot product of two 3-vectors. -/
def dot (u v : Vec3) : ℚ :=
  u.1 * v.1 + u.2.1 * v.2.1 + u.2.2 * v.2.2

/-- Cross product of two 3-vectors. -/
def cross (u v : Vec3) : Vec3 :=
  (u.2.1 * v.2.2 - u.2.2 * v.2.1,
   u.2.2 * v.1 - u.1 * v.2.2,
   u.1 * v.2.1 - u.2.1 * v.1)

/-- Scalar multiple of a 3-vector. -/
def smul (c : ℚ) (v : Vec3) : Vec3 := (c * v.1, c * v.2.1, c * v.2.2)

/-- Component-wise sum of two 3-vectors. -/
def vadd (u v : Vec3) : Vec3 := (u.1 + v.1, u.2.1 + v.2.1, u.2.2 + v.2.2)

/-- Modelled from the spec (§3 Data Model): an atomic site of the missing
Rust core — element symbol, fractional coordinates and occupancy. -/
structure Site where
  element : String
  x : ℚ
  y : ℚ
  z : ℚ
  occupancy : ℚ
deriving DecidableEq, Repr

/-- Modelled from the spec (§3 Data Model): a crystal structure of the
missing Rust core — three direct-lattice row vectors (angstroms) plus an
ordered list of sites. -/
structure CrystalStructure where
  a1 : Vec3
  a2 : Vec3
  a3 : Vec3
  sites : List Site
deriving DecidableEq, Repr

/-- Modelled from the spec (§7 Error Handling): the distinct
caller-inspectable failure kinds of the missing Rust core. -/
inductive XRDError where
  | UnknownWavelength : XRDError
  | InvalidWavelength : XRDError
  | UnsupportedElement : String → XRDError
  | EmptyStructure : XRDError
  | InvalidRange : XRDError
deriving DecidableEq, Repr

/-- Modelled from the spec (§4.1): a wavelength request — either a named
radiation or an explicit numeric value. -/
inductive WavelengthInput where
  | name : String → WavelengthInput
  | value : ℚ → WavelengthInput
deriving DecidableEq, Repr

/-- Modelled from the spec (§2, §4.1) and the `WAVELENGTHS` export of
`xrd_rust_calculator/__init__.py`: the fixed table of standard
characteristic radiations (angstroms).  The spec pins Cu-Kα ≈ 1.54184 Å
and Mo-Kα ≈ 0.70930 Å. -/
def WAVELENGTHS : List (String × ℚ) :=
  [("CuKa", 154184 / 100000),
   ("CuKa1", 154056 / 100000),
   ("CuKa2", 154439 / 100000),
   ("CuKb1", 139222 / 100000),
   ("MoKa", 70930 / 100000),
   ("AgKa", 55941 / 100000),
   ("FeKa", 193735 / 100000),
   ("CoKa", 179026 / 100000),
   ("CrKa", 229100 / 100000)]

/-- ASCII lower-casing of a character. -/
def lowerChar (c : Char) : Char :=
  if c.val ≥ 65 ∧ c.val ≤ 90 then Char.ofNat (c.toNat + 32) else c

/-- ASCII lower-casing of a string. -/
def lowerStr (s : String) : String := ⟨s.data.map lowerChar⟩

/-- Modelled from the spec (§4.1) and the example callers (which spell the
same radiation both "CuKa" and "Cuka"): name lookup is performed on the
lower-cased name. -/
def lookupWavelength (s : String) : Option ℚ :=
  (WAVELENGTHS.map (fun p => (lowerStr p.1, p.2))).lookup (lowerStr s)

/-- Modelled from the spec (§4.1 Wavelength Registry): resolve a named or
numeric wavelength, failing with `UnknownWavelength` for an unrecognized
name and `InvalidWavelength` for a non-positive numeric value. -/
def resolve : WavelengthInput → Except XRDError ℚ
  | .name s =>
      match lookupWavelength s with
      | some v => .ok v
      | none => .error .UnknownWavelength
  | .value q => if q ≤ 0 then .error .InvalidWavelength else .ok q

instance {ε α : Type} [DecidableEq ε] [DecidableEq α] :
    DecidableEq (Except ε α) := fun a b =>
  match a, b with
  | .ok x, .ok y => decidable_of_iff (x = y) (by simp)
  | .error e, .error f => decidable_of_iff (e = f) (by simp)
  | .ok _, .error _ => isFalse (by simp)
  | .error _, .ok _ => isFalse (by simp)

/-- Modelled from the spec (§3, §4.2): the Gaussian-sum parameterization of
an element's atomic scattering factor — four amplitude/exponent pairs plus
a constant term. -/
structure Coeffs where
  fa1 : ℚ
  fb1 : ℚ
  fa2 : ℚ
  fb2 : ℚ
  fa3 : ℚ
  fb3 : ℚ
  fa4 : ℚ
  fb4 : ℚ
  fc : ℚ
deriving DecidableEq, Repr

/-- Modelled from the spec (§3, §4.2): the immutable per-element scattering
coefficient table of the missing Rust core, populated once from embedded
reference data (standard international-tables values, as exact rationals). -/
def SCATTERING_PARAMS : List (String × Coeffs) :=
  [("H", ⟨489918 / 1000000, 205103 / 10000, 262003 / 1000000, 742937 / 10000,
          196767 / 1000000, 49953 / 1000, 49879 / 1000000, 41 / 100, 1305 / 1000000⟩),
   ("C", ⟨231 / 1000, 2088 / 100, 102 / 100, 102075 / 10000,
          15886 / 10000, 5687 / 10000, 865 / 1000, 515187 / 10000, 2156 / 10000⟩),
   ("O", ⟨30485 / 10000, 132771 / 10000, 2286 / 1000, 57011 / 10000,
          15463 / 10000, 3239 / 10000, 867 / 1000, 329089 / 10000, 2508 / 10000⟩),
   ("Na", ⟨47626 / 10000, 3285 / 1000, 31736 / 10000, 88422 / 10000,
           12674 / 10000, 3136 / 10000, 11128 / 10000, 129424 / 1000, 676 / 1000⟩),
   ("Si", ⟨64579 / 10000, 29915 / 10000, 30201 / 10000, 322557 / 10000,
           15415 / 10000, 2509 / 10000, 11907 / 10000, 325134 / 10000, 114072 / 100000⟩),
   ("Cl", ⟨114604 / 10000, 104 / 10000, 71964 / 10000, 11662 / 10000,
           62556 / 10000, 185194 / 10000, 16455 / 10000, 477784 / 10000, -95574 / 10000⟩),
   ("Fe", ⟨112972 / 10000, 43946 / 10000, 73511 / 10000, 3481 / 10000,
           34337 / 10000, 153119 / 10000, 7212 / 10000, 769871 / 10000, 9707 / 10000⟩),
   ("Cs", ⟨200389 / 10000, 358207 / 10000, 171866 / 10000, 9644 / 100000,
           109542 / 10000, 214305 / 10000, 55914 / 10000, 1619150 / 10000, 32258 / 10000⟩)]

/-- Element lookup in the scattering-coefficient table. -/
def lookupCoeffs (el : String) : Option Coeffs :=
  SCATTERING_PARAMS.lookup el

/-- Modelled from the spec (§4.2, §7, Scenario C): pair every site with its
scattering coefficients, failing with `UnsupportedElement` on the first site
whose element has no entry — the missing factor is never defaulted. -/
def pairCoeffs : List Site → Except XRDError (List (Site × Coeffs))
  | [] => .ok []
  | s :: rest =>
      match lookupCoeffs s.element with
      | none => .error (.UnsupportedElement s.element)
      | some cf =>
          match pairCoeffs rest with
          | .error e => .error e
          | .ok ps => .ok ((s, cf) :: ps)

/-- The transcendental functions of the machine-real implementation,
abstracted: every theorem below holds for every realization of these
fields.  `sqrt` stands for the square root, `expNeg` for `x ↦ exp (−x)`,
`cosTwoPi`/`sinTwoPi` for `x ↦ cos (2πx)`/`sin (2πx)`, `sinDeg` for the
sine of an angle given in degrees, and `twoThetaDeg` for
`x ↦ 2·arcsin (√x)` in degrees (evaluated on sin²θ).  The single proof
field records that square roots are non-negative, which any faithful
realization satisfies. -/
structure NumericModel where
  sqrt : ℚ → ℚ
  expNeg : ℚ → ℚ
  cosTwoPi : ℚ → ℚ
  sinTwoPi : ℚ → ℚ
  sinDeg : ℚ → ℚ
  twoThetaDeg : ℚ → ℚ
  sqrt_nonneg : ∀ q : ℚ, 0 ≤ sqrt q

/-- Modelled from the spec (§4.3): the reciprocal-lattice point
`h·b₁ + k·b₂ + l·b₃` of a Miller triple, where the reciprocal basis is the
inverse-transpose of the direct lattice (crystallographic convention,
without the 2π factor), computed via cross products over the cell volume. -/
def recipPoint (st : CrystalStructure) (t : Triple) : Vec3 :=
  let vol := dot st.a1 (cross st.a2 st.a3)
  let b1 := smul (1 / vol) (cross st.a2 st.a3)
  let b2 := smul (1 / vol) (cross st.a3 st.a1)
  let b3 := smul (1 / vol) (cross st.a1 st.a2)
  vadd (smul (t.1 : ℚ) b1) (vadd (smul (t.2.1 : ℚ) b2) (smul (t.2.2 : ℚ) b3))

/-- The squared magnitude `‖h·b₁ + k·b₂ + l·b₃‖² = 1/d²` of a reciprocal
lattice point (exact rational, no square root needed). -/
def gNorm (st : CrystalStructure) (t : Triple) : ℚ :=
  dot (recipPoint st t) (recipPoint st t)

/-- The symmetric integer range `[-N, N]` of candidate indices for one
axis, traversed in ascending order. -/
def hklRange (n : ℕ) : List ℤ :=
  (List.range (2 * n + 1)).map (fun i : ℕ => (i : ℤ) - (n : ℤ))

/-- Modelled from the spec (§4.3): the conservative per-axis index bound
`⌈r·‖aᵢ‖⌉` derived from the cell geometry, for search radius `r = 1/d_min`. -/
def axisBound (M : NumericModel) (r : ℚ) (a : Vec3) : ℕ :=
  (Int.toNat ⌈r * M.sqrt (dot a a)⌉)

/-- Modelled from the spec (§4.3 Reciprocal Lattice Enumerator): enumerate,
in a fixed lexicographic traversal, all Miller triples within the
accessible sphere of radius `1/d_min = 2·sin(two_theta_max/2)/λ`,
excluding `(0,0,0)`; a reflection and its inverse are both kept. -/
def enumerate (M : NumericModel) (st : CrystalStructure) (lam tmax : ℚ) : List Triple :=
  let r := 2 * M.sinDeg (tmax / 2) / lam
  let n1 := axisBound M r st.a1
  let n2 := axisBound M r st.a2
  let n3 := axisBound M r st.a3
  ((hklRange n1).product ((hklRange n2).product (hklRange n3))).filter
    (fun t => decide (¬t = ((0, 0, 0) : Triple) ∧ gNorm st t ≤ r ^ 2))

/-- Modelled from the spec (§3, §4.4): a transient reflection — Miller
triple, two-theta angle (degrees) and raw intensity. -/
structure Reflection where
  hkl : Triple
  twoTheta : ℚ
  intensity : ℚ
deriving DecidableEq, Repr

/-- Modelled from the spec (§3): an externally visible diffraction peak —
two-theta angle (degrees), intensity, and the Miller triples merged into
this angle. -/
structure DiffractionPeak where
  twoTheta : ℚ
  intensity : ℚ
  hkls : List Triple
deriving DecidableEq, Repr

/-- Modelled from the spec (§3): the top-level result — the ordered peaks
plus the wavelength and angular range used to produce them. -/
structure Pattern where
  peaks : List DiffractionPeak
  wavelength : ℚ
  two_theta_min : ℚ
  two_theta_max : ℚ
deriving DecidableEq, Repr

/-- Modelled from the spec (§4.2): the atomic scattering factor as a
Gaussian sum evaluated at `s² = (sin θ / λ)²`. -/
def formFactor (M : NumericModel) (cf : Coeffs) (s2 : ℚ) : ℚ :=
  cf.fa1 * M.expNeg (cf.fb1 * s2) + cf.fa2 * M.expNeg (cf.fb2 * s2) +
  cf.fa3 * M.expNeg (cf.fb3 * s2) + cf.fa4 * M.expNeg (cf.fb4 * s2) + cf.fc

/-- The phase argument `h·x + k·y + l·z` of a site for a Miller triple. -/
def phase (s : Site) (t : Triple) : ℚ :=
  (t.1 : ℚ) * s.x + (t.2.1 : ℚ) * s.y + (t.2.2 : ℚ) * s.z

/-- Modelled from the spec (§4.4 Structure Factor Calculator): for one
candidate triple, reject it (with `none`, not an error) when the Bragg
condition `sin θ = λ/(2d) > 1` is geometrically inaccessible — expressed
exactly on squares as `λ²·(1/d²)/4 > 1` — and otherwise sum the complex
structure factor over all sites (occupancy × form factor × phase factor;
the data model carries no thermal parameter, so the Debye–Waller damping
term is unity) and apply the Lorentz-polarization correction
`(1 + cos² 2θ)/(sin² θ · cos θ)`. -/
def calcReflection (M : NumericModel) (st : CrystalStructure)
    (pairs : List (Site × Coeffs)) (lam : ℚ) (t : Triple) : Option Reflection :=
  let g := gNorm st t
  let sinSq := lam ^ 2 * g / 4
  if 1 < sinSq then none
  else
    let s2 := g / 4
    let fRe := (pairs.map (fun p =>
      p.1.occupancy * formFactor M p.2 s2 * M.cosTwoPi (phase p.1 t))).sum
    let fIm := (pairs.map (fun p =>
      p.1.occupancy * formFactor M p.2 s2 * M.sinTwoPi (phase p.1 t))).sum
    let lp := (1 + (1 - 2 * sinSq) ^ 2) / (sinSq * M.sqrt (1 - sinSq))
    some ⟨t, M.twoThetaDeg sinSq, (fRe ^ 2 + fIm ^ 2) * lp⟩

/-- Modelled from the spec (§4.5): the fixed small merge tolerance for
two-theta angles, on the order of 1e-3 degrees. -/
def MERGE_TOL : ℚ := 1 / 1000

/-- The sorting relation on reflections: ascending two-theta angle. -/
def angleLE (a b : Reflection) : Prop := a.twoTheta ≤ b.twoTheta

instance : DecidableRel angleLE := fun a b =>
  inferInstanceAs (Decidable (a.twoTheta ≤ b.twoTheta))

instance : IsTotal Reflection angleLE :=
  ⟨fun a b => le_total a.twoTheta b.twoTheta⟩

instance : IsTrans Reflection angleLE :=
  ⟨fun _ _ _ hab hbc => le_trans hab hbc⟩

/-- Modelled from the spec (§4.5): walk an angle-sorted reflection list,
grouping consecutive reflections whose angles differ by less than the
tolerance into one peak whose intensity is the group's sum, whose
Miller-index set is the group's union, and whose reported angle is the
group's first angle (the consistently chosen convention). -/
def mergeSorted (tol : ℚ) : List Reflection → List DiffractionPeak
  | [] => []
  | [r] => [⟨r.twoTheta, r.intensity, [r.hkl]⟩]
  | r :: s :: rest =>
      match mergeSorted tol (s :: rest) with
      | [] => [⟨r.twoTheta, r.intensity, [r.hkl]⟩]
      | p :: ps =>
          if s.twoTheta - r.twoTheta < tol then
            ⟨r.twoTheta, r.intensity + p.intensity, r.hkl :: p.hkls⟩ :: ps
          else
            ⟨r.twoTheta, r.intensity, [r.hkl]⟩ :: p :: ps

/-- The maximum intensity of a peak list (0 for the empty list). -/
def maxIntensity (ps : List DiffractionPeak) : ℚ :=
  ps.foldr (fun p m => max p.intensity m) 0

/-- Modelled from the spec (§4.5): rescale all intensities so the maximum
peak is exactly 100, preserving relative ratios. -/
def rescale (ps : List DiffractionPeak) : List DiffractionPeak :=
  let m := maxIntensity ps
  ps.map (fun p => ⟨p.twoTheta, p.intensity * 100 / m, p.hkls⟩)

/-- Modelled from the spec (§4.5 Peak Aggregator): sort the accepted
reflections by angle, merge within tolerance, discard peaks outside
`[two_theta_min, two_theta_max]`, and optionally rescale to maximum 100. -/
def aggregate (refls : List Reflection) (tmin tmax tol : ℚ)
    (scaled : Bool) : List DiffractionPeak :=
  let merged := mergeSorted tol (List.insertionSort angleLE refls)
  let filtered := merged.filter
    (fun p => decide (tmin ≤ p.twoTheta ∧ p.twoTheta ≤ tmax))
  if scaled then rescale filtered else filtered

/-- The accepted reflections of a call: every enumerated candidate that the
structure-factor calculator does not drop. -/
def reflections (M : NumericModel) (st : CrystalStructure)
    (pairs : List (Site × Coeffs)) (lam tmax : ℚ) : List Reflection :=
  (enumerate M st lam tmax).filterMap (calcReflection M st pairs lam)

/-- Modelled from the spec (§4.6 Pattern Builder, §6, §7): the public entry
point.  Validates — at least one site, `two_theta_min < two_theta_max`,
both within (0°, 180°), wavelength resolvable, every element supported —
before any numerical work, then enumerates, calculates, aggregates and
returns the immutable `Pattern`. -/
def get_pattern (M : NumericModel) (st : CrystalStructure)
    (wl : WavelengthInput) (tmin tmax : ℚ) (scaled : Bool) :
    Except XRDError Pattern :=
  if st.sites = [] then .error .EmptyStructure
  else if ¬(0 < tmin ∧ tmin < tmax ∧ tmax < 180) then .error .InvalidRange
  else
    match resolve wl with
    | .error e => .error e
    | .ok lam =>
        match pairCoeffs st.sites with
        | .error e => .error e
        | .ok pairs =>
            .ok ⟨aggregate (reflections M st pairs lam tmax) tmin tmax
                   MERGE_TOL scaled, lam, tmin, tmax⟩

/-- The Friedel inverse `(−h, −k, −l)` of a Miller triple. -/
def negT (t : Triple) : Triple := (-t.1, -t.2.1, -t.2.2)

/-- Modelled from the spec (§8 Friedel symmetry): a site list is
centrosymmetric when every site has a counterpart of the same species and
occupancy at the negated fractional coordinates (modulo 1, i.e. the
coordinate sums are integers). -/
def Centrosymmetric (sites : List Site) : Prop :=
  ∀ s ∈ sites, ∃ s2 ∈ sites, s2.element = s.element ∧
    s2.occupancy = s.occupancy ∧
    (s2.x + s.x).den = 1 ∧ (s2.y + s.y).den = 1 ∧ (s2.z + s.z).den = 1

instance (sites : List Site) : Decidable (Centrosymmetric sites) :=
  List.decidableBAll _ sites

/-! ### Concrete fixtures used by the witness theorems -/

/-- A concrete numeric realization used to exercise the pipeline on
closed inputs (any realization works for the theorems below). -/
def Mwit : NumericModel where
  sqrt := fun _ => 1
  expNeg := fun _ => 1
  cosTwoPi := fun _ => 1
  sinTwoPi := fun _ => 0
  sinDeg := fun _ => 1 / 2
  twoThetaDeg := fun x => x
  sqrt_nonneg := fun _ => zero_le_one

/-- A concrete one-site hydrogen structure on an anisotropic cell. -/
def stWit : CrystalStructure :=
  ⟨(1, 0, 0), (0, 1 / 2, 0), (0, 0, 1 / 2), [⟨"H", 0, 0, 0, 1⟩]⟩

/-- A concrete structure with no sites. -/
def stEmpty : CrystalStructure :=
  ⟨(1, 0, 0), (0, 1, 0), (0, 0, 1), []⟩

/-- A concrete structure whose element is absent from the scattering
table. -/
def stBad : CrystalStructure :=
  ⟨(1, 0, 0), (0, 1, 0), (0, 0, 1), [⟨"Zz", 0, 0, 0, 1⟩]⟩

/-- The site/coefficient pairing of the fixture structure. -/
def pairsWitH : List (Site × Coeffs) :=
  [(⟨"H", 0, 0, 0, 1⟩,
    ⟨489918 / 1000000, 205103 / 10000, 262003 / 1000000, 742937 / 10000,
     196767 / 1000000, 49953 / 1000, 49879 / 1000000, 41 / 100, 1305 / 1000000⟩)]

/-- The unscaled pattern produced by the fixture call. -/
def patWitU : Pattern :=
  ⟨[⟨1 / 4, 488156258 / 48828125, [(-1, 0, 0), (1, 0, 0)]⟩], 1, 1 / 8, 150⟩

/-- The rescaled pattern produced by the fixture call. -/
def patWitS : Pattern :=
  ⟨[⟨1 / 4, 100, [(-1, 0, 0), (1, 0, 0)]⟩], 1, 1 / 8, 150⟩

/-- A numeric realization whose cosine stand-in agrees with the real
`cos (2πx)` at every phase it is evaluated on below (it sends 0 to 1 and
±1/2 to −1, as the real cosine does). -/
def Mzero : NumericModel where
  sqrt := fun _ => 1
  expNeg := fun _ => 1
  cosTwoPi := fun x => 1 - 8 * x ^ 2
  sinTwoPi := fun _ => 0
  sinDeg := fun _ => 1 / 2
  twoThetaDeg := fun x => x
  sqrt_nonneg := fun _ => zero_le_one

/-- A body-centred-style two-site structure: the surviving candidate
reflections have odd index sum, so the two sites' phase factors cancel
exactly and every raw intensity is zero (a systematic absence). -/
def stZero : CrystalStructure :=
  ⟨(1, 0, 0), (0, 1 / 2, 0), (0, 0, 1 / 2),
   [⟨"H", 0, 0, 0, 1⟩, ⟨"H", 1 / 2, 1 / 2, 1 / 2, 1⟩]⟩

/-- The non-empty, all-zero-intensity pattern returned (scaled) for the
systematic-absence structure. -/
def patZeroS : Pattern :=
  ⟨[⟨1 / 4, 0, [(-1, 0, 0), (1, 0, 0)]⟩], 1, 1 / 8, 150⟩

/-! ### Evaluation of the fixtures -/

/-- The fixture call evaluates to the expected unscaled pattern. -/
theorem get_pattern_wit_false :
    get_pattern Mwit stWit (.value 1) (1 / 8) 150 false = .ok patWitU := by
  norm_num [get_pattern, resolve, pairCoeffs, lookupCoeffs, SCATTERING_PARAMS, aggregate,
    reflections, enumerate, axisBound, hklRange, gNorm, recipPoint, dot, cross, smul, vadd,
    calcReflection, formFactor, phase, mergeSorted, rescale, maxIntensity, MERGE_TOL,
    Mwit, stWit, angleLE, List.insertionSort, List.orderedInsert, List.range_succ,
    List.lookup, patWitU, List.filterMap_cons, List.filter_cons, List.product,
    decide_eq_true_eq]

/-- The fixture call evaluates to the expected rescaled pattern. -/
theorem get_pattern_wit_true :
    get_pattern Mwit stWit (.value 1) (1 / 8) 150 true = .ok patWitS := by
  norm_num [get_pattern, resolve, pairCoeffs, lookupCoeffs, SCATTERING_PARAMS, aggregate,
    reflections, enumerate, axisBound, hklRange, gNorm, recipPoint, dot, cross, smul, vadd,
    calcReflection, formFactor, phase, mergeSorted, rescale, maxIntensity, MERGE_TOL,
    Mwit, stWit, angleLE, List.insertionSort, List.orderedInsert, List.range_succ,
    List.lookup, patWitS, List.filterMap_cons, List.filter_cons, List.product,
    decide_eq_true_eq]

/-! ### Structure of the merge step -/

/-- A merged peak list starts with a peak carrying the first reflection's
angle and Miller triple. -/
theorem mergeSorted_head (tol : ℚ) (x : Reflection) (xs : List Reflection) :
    ∃ p ps, mergeSorted tol (x :: xs) = p :: ps ∧ p.twoTheta = x.twoTheta ∧
      x.hkl ∈ p.hkls := by
  cases xs with
  | nil => exact ⟨⟨x.twoTheta, x.intensity, [x.hkl]⟩, [], by simp [mergeSorted], rfl, by simp⟩
  | cons s rest =>
      cases h : mergeSorted tol (s :: rest) with
      | nil => exact ⟨⟨x.twoTheta, x.intensity, [x.hkl]⟩, [], by simp [mergeSorted, h], rfl, by simp⟩
      | cons p ps =>
          by_cases hc : s.twoTheta - x.twoTheta < tol
          · exact ⟨⟨x.twoTheta, x.intensity + p.intensity, x.hkl :: p.hkls⟩, ps,
              by simp [mergeSorted, h, hc], rfl, by simp⟩
          · exact ⟨⟨x.twoTheta, x.intensity, [x.hkl]⟩, p :: ps,
              by simp [mergeSorted, h, hc], rfl, by simp⟩

/-- Every peak of a merged tail embeds (by Miller-index inclusion) into a
peak of the merged full list. -/
theorem mergeSorted_absorb (tol : ℚ) (x : Reflection) (xs : List Reflection) :
    ∀ q ∈ mergeSorted tol xs, ∃ p ∈ mergeSorted tol (x :: xs), q.hkls ⊆ p.hkls := by
  intro q hq
  cases xs with
  | nil => simp [mergeSorted] at hq
  | cons s rest =>
      cases h : mergeSorted tol (s :: rest) with
      | nil => rw [h] at hq; simp at hq
      | cons p ps =>
          rw [h] at hq
          by_cases hc : s.twoTheta - x.twoTheta < tol
          · rcases List.mem_cons.1 hq with rfl | hq2
            · exact ⟨⟨x.twoTheta, x.intensity + q.intensity, x.hkl :: q.hkls⟩,
                by simp [mergeSorted, h, hc], by intro a ha; simp [ha]⟩
            · exact ⟨q, by simp [mergeSorted, h, hc, hq2], fun a ha => ha⟩
          · refine ⟨q, ?_, fun a ha => ha⟩
            have : mergeSorted tol (x :: s :: rest) =
                ⟨x.twoTheta, x.intensity, [x.hkl]⟩ :: p :: ps := by
              simp [mergeSorted, h, hc]
            rw [this]
            exact List.mem_cons_of_mem _ hq

/-- Merging preserves the multiset of Miller triples: the concatenation of
all peaks' index lists is exactly the reflections' index list. -/
theorem mergeSorted_flatten (tol : ℚ) :
    ∀ l : List Reflection,
      ((mergeSorted tol l).map DiffractionPeak.hkls).flatten = l.map Reflection.hkl := by
  intro l
  induction l with
  | nil => simp [mergeSorted]
  | cons x xs ih =>
      cases xs with
      | nil => simp [mergeSorted]
      | cons s rest =>
          cases h : mergeSorted tol (s :: rest) with
          | nil => rw [h] at ih; simp at ih
          | cons p ps =>
              rw [h] at ih
              by_cases hc : s.twoTheta - x.twoTheta < tol
              · simp only [mergeSorted, h, hc, if_pos, List.map_cons, List.flatten_cons] at ih ⊢
                simp [← ih]
              · simp only [mergeSorted, h, hc, if_neg, List.map_cons, List.flatten_cons] at ih ⊢
                simp [← ih]

/-- Merged peaks of non-negative reflections have non-negative intensity
and a non-empty Miller-index list. -/
theorem mergeSorted_nonneg (tol : ℚ) :
    ∀ l : List Reflection, (∀ r ∈ l, 0 ≤ r.intensity) →
      ∀ p ∈ mergeSorted tol l, 0 ≤ p.intensity ∧ p.hkls ≠ [] := by
  intro l
  induction l with
  | nil => intro _ p hp; simp [mergeSorted] at hp
  | cons x xs ih =>
      intro hnn p hp
      cases xs with
      | nil =>
          simp only [mergeSorted, List.mem_singleton] at hp
          subst hp
          exact ⟨hnn x (by simp), by simp⟩
      | cons s rest =>
          obtain ⟨q, qs, h, _, _⟩ := mergeSorted_head tol s rest
          have htail : ∀ r ∈ s :: rest, 0 ≤ r.intensity :=
            fun r hr => hnn r (List.mem_cons_of_mem _ hr)
          have ihq := ih htail
          rw [h] at ihq
          by_cases hc : s.twoTheta - x.twoTheta < tol
          · have e : mergeSorted tol (x :: s :: rest) =
                ⟨x.twoTheta, x.intensity + q.intensity, x.hkl :: q.hkls⟩ :: qs := by
              simp [mergeSorted, h, hc]
            rw [e] at hp
            rcases List.mem_cons.1 hp with rfl | hp2
            · exact ⟨add_nonneg (hnn x (by simp)) (ihq q (by simp)).1, by simp⟩
            · exact ihq p (List.mem_cons_of_mem _ hp2)
          · have e : mergeSorted tol (x :: s :: rest) =
                ⟨x.twoTheta, x.intensity, [x.hkl]⟩ :: q :: qs := by
              simp [mergeSorted, h, hc]
            rw [e] at hp
            rcases List.mem_cons.1 hp with rfl | hp2
            · exact ⟨hnn x (by simp), by simp⟩
            · exact ihq p hp2

/-- Merging an angle-sorted list yields peaks whose consecutive (hence
all) angles are separated by at least the tolerance. -/
theorem mergeSorted_pairwise (tol : ℚ) (htol : 0 ≤ tol) :
    ∀ l : List Reflection, l.Pairwise angleLE →
      (mergeSorted tol l).Pairwise
        (fun p q => p.twoTheta + tol ≤ q.twoTheta) := by
  intro l
  induction l with
  | nil => simp [mergeSorted]
  | cons x xs ih =>
      intro hs
      cases xs with
      | nil => simp [mergeSorted]
      | cons s rest =>
          obtain ⟨q, qs, h, hqθ, _⟩ := mergeSorted_head tol s rest
          have ihq := ih hs.of_cons
          rw [h] at ihq
          have hxs : x.twoTheta ≤ s.twoTheta := (List.pairwise_cons.1 hs).1 s (by simp)
          by_cases hc : s.twoTheta - x.twoTheta < tol
          · have e : mergeSorted tol (x :: s :: rest) =
                ⟨x.twoTheta, x.intensity + q.intensity, x.hkl :: q.hkls⟩ :: qs := by
              simp [mergeSorted, h, hc]
            rw [e]
            refine List.pairwise_cons.2 ⟨?_, ihq.of_cons⟩
            intro p hp
            have hqp := (List.pairwise_cons.1 ihq).1 p hp
            have : x.twoTheta ≤ q.twoTheta := by rw [hqθ]; exact hxs
            linarith
          · have e : mergeSorted tol (x :: s :: rest) =
                ⟨x.twoTheta, x.intensity, [x.hkl]⟩ :: q :: qs := by
              simp [mergeSorted, h, hc]
            rw [e]
            refine List.pairwise_cons.2 ⟨?_, ihq⟩
            intro p hp
            have hxq : x.twoTheta + tol ≤ q.twoTheta := by
              rw [hqθ]; linarith [not_lt.1 hc]
            rcases List.mem_cons.1 hp with rfl | hp2
            · exact hxq
            · have hqp := (List.pairwise_cons.1 ihq).1 p hp2
              dsimp only at hqp ⊢
              linarith

/-- Every reflection sharing the first reflection's angle lands in the
first merged peak. -/
theorem mergeSorted_head_mem (tol : ℚ) (htol : 0 < tol) :
    ∀ (xs : List Reflection) (x : Reflection), (x :: xs).Pairwise angleLE →
      ∀ p ps, mergeSorted tol (x :: xs) = p :: ps →
      ∀ r ∈ x :: xs, r.twoTheta = x.twoTheta → r.hkl ∈ p.hkls := by
  intro xs
  induction xs with
  | nil =>
      intro x _ p ps h r hr hθ
      simp only [mergeSorted, List.cons.injEq] at h
      simp only [List.mem_singleton] at hr
      subst hr
      rw [← h.1]
      simp
  | cons s rest ih =>
      intro x hs p ps h r hr hθ
      obtain ⟨q, qs, hq, hqθ, hqhkl⟩ := mergeSorted_head tol s rest
      have hxs : x.twoTheta ≤ s.twoTheta := (List.pairwise_cons.1 hs).1 s (by simp)
      have hsle : ∀ r2 ∈ s :: rest, s.twoTheta ≤ r2.twoTheta := by
        intro r2 hr2
        rcases List.mem_cons.1 hr2 with rfl | hr3
        · exact le_refl _
        · exact (List.pairwise_cons.1 hs.of_cons).1 r2 hr3
      by_cases hc : s.twoTheta - x.twoTheta < tol
      · have e : mergeSorted tol (x :: s :: rest) =
            ⟨x.twoTheta, x.intensity + q.intensity, x.hkl :: q.hkls⟩ :: qs := by
          simp [mergeSorted, hq, hc]
        rw [e] at h
        rw [List.cons.injEq] at h
        obtain ⟨hp1, hps⟩ := h
        subst hp1
        rcases List.mem_cons.1 hr with rfl | hr2
        · simp
        · have hrs : r.twoTheta = s.twoTheta :=
            le_antisymm (hθ ▸ hxs) (hsle r hr2)
          have := ih s hs.of_cons q qs hq r hr2 hrs
          exact List.mem_cons_of_mem _ this
      · have e : mergeSorted tol (x :: s :: rest) =
            ⟨x.twoTheta, x.intensity, [x.hkl]⟩ :: q :: qs := by
          simp [mergeSorted, hq, hc]
        rw [e] at h
        rw [List.cons.injEq] at h
        obtain ⟨hp1, hps⟩ := h
        subst hp1
        rcases List.mem_cons.1 hr with rfl | hr2
        · simp
        · exfalso
          have h1 := hsle r hr2
          have h2 := not_lt.1 hc
          rw [hθ] at h1
          linarith

/-- Two reflections of a sorted list with equal angles are merged into a
common peak. -/
theorem mergeSorted_same_angle (tol : ℚ) (htol : 0 < tol) :
    ∀ l : List Reflection, l.Pairwise angleLE →
      ∀ r ∈ l, ∀ r2 ∈ l, r.twoTheta = r2.twoTheta →
      ∃ p ∈ mergeSorted tol l, r.hkl ∈ p.hkls ∧ r2.hkl ∈ p.hkls := by
  intro l
  induction l with
  | nil => simp
  | cons x xs ih =>
      intro hs r hr r2 hr2 hθ
      by_cases hrx : r.twoTheta = x.twoTheta
      · obtain ⟨p, ps, h, _, _⟩ := mergeSorted_head tol x xs
        refine ⟨p, by simp [h], ?_, ?_⟩
        · exact mergeSorted_head_mem tol htol xs x hs p ps h r hr hrx
        · exact mergeSorted_head_mem tol htol xs x hs p ps h r2 hr2 (by rw [← hθ]; exact hrx)
      · have hrxs : r ∈ xs := by
          rcases List.mem_cons.1 hr with h2 | h2
          · exact absurd (congrArg Reflection.twoTheta h2) hrx
          · exact h2
        have hr2xs : r2 ∈ xs := by
          rcases List.mem_cons.1 hr2 with h2 | h2
          · exact absurd (hθ.trans (congrArg Reflection.twoTheta h2)) hrx
          · exact h2
        obtain ⟨q, hq, hq1, hq2⟩ := ih hs.of_cons r hrxs r2 hr2xs hθ
        obtain ⟨p, hp, hsub⟩ := mergeSorted_absorb tol x xs q hq
        exact ⟨p, hp, hsub hq1, hsub hq2⟩

/-! ### Geometry, enumeration and the structure-factor calculator -/

/-- The squared reciprocal magnitude is a sum of squares, hence
non-negative. -/
theorem gNorm_nonneg (st : CrystalStructure) (t : Triple) : 0 ≤ gNorm st t := by
  have h1 := mul_self_nonneg (recipPoint st t).1
  have h2 := mul_self_nonneg (recipPoint st t).2.1
  have h3 := mul_self_nonneg (recipPoint st t).2.2
  unfold gNorm dot
  linarith

/-- The squared reciprocal magnitude of the Friedel inverse equals that of
the original triple. -/
theorem gNorm_negT (st : CrystalStructure) (t : Triple) :
    gNorm st (negT t) = gNorm st t := by
  rcases t with ⟨h, k, l⟩
  simp only [gNorm, recipPoint, negT, dot, cross, smul, vadd]
  push_cast
  ring

/-- Membership in the symmetric per-axis index range. -/
theorem mem_hklRange (n : ℕ) (a : ℤ) :
    a ∈ hklRange n ↔ -(n : ℤ) ≤ a ∧ a ≤ (n : ℤ) := by
  unfold hklRange
  rw [List.mem_map]
  constructor
  · rintro ⟨i, hi, hia⟩
    rw [List.mem_range] at hi
    omega
  · rintro ⟨h1, h2⟩
    refine ⟨(a + (n : ℤ)).toNat, ?_, ?_⟩
    · rw [List.mem_range]
      omega
    · omega

/-- The per-axis index range has no duplicates. -/
theorem hklRange_nodup (n : ℕ) : (hklRange n).Nodup := by
  unfold hklRange
  refine List.Nodup.map ?_ (List.nodup_range _)
  intro a b hab
  have hab2 : (a : ℤ) - (n : ℤ) = (b : ℤ) - (n : ℤ) := hab
  omega

/-- The enumerator emits no duplicate Miller triples. -/
theorem enumerate_nodup (M : NumericModel) (st : CrystalStructure) (lam tmax : ℚ) :
    (enumerate M st lam tmax).Nodup := by
  unfold enumerate
  exact List.Nodup.filter _
    ((hklRange_nodup _).product ((hklRange_nodup _).product (hklRange_nodup _)))

/-- The enumerator is symmetric under the Friedel inversion, and the
inverse is a distinct candidate. -/
theorem enumerate_negT (M : NumericModel) (st : CrystalStructure) (lam tmax : ℚ)
    (t : Triple) (ht : t ∈ enumerate M st lam tmax) :
    negT t ∈ enumerate M st lam tmax ∧ negT t ≠ t := by
  rcases t with ⟨h, k, l⟩
  unfold enumerate at ht ⊢
  rw [List.mem_filter] at ht ⊢
  obtain ⟨hmem, hcond⟩ := ht
  obtain ⟨hne, hg⟩ := of_decide_eq_true hcond
  obtain ⟨hm1, hm2⟩ := List.mem_product.1 hmem
  obtain ⟨hm2a, hm2b⟩ := List.mem_product.1 hm2
  rw [mem_hklRange] at hm1 hm2a hm2b
  have hne3 : ¬(h = 0 ∧ k = 0 ∧ l = 0) := by
    intro hc
    exact hne (by simp [Prod.ext_iff, hc.1, hc.2.1, hc.2.2])
  refine ⟨⟨?_, ?_⟩, ?_⟩
  · exact List.mem_product.2 ⟨(mem_hklRange _ _).2 (by simp [negT]; omega),
      List.mem_product.2 ⟨(mem_hklRange _ _).2 (by simp [negT]; omega),
        (mem_hklRange _ _).2 (by simp [negT]; omega)⟩⟩
  · refine decide_eq_true ⟨?_, ?_⟩
    · intro hc
      simp only [negT, Prod.ext_iff] at hc
      exact hne3 (by omega)
    · rw [gNorm_negT]
      exact hg
  · intro hc
    simp only [negT, Prod.ext_iff] at hc
    exact hne3 (by omega)

/-- An accepted reflection carries the candidate triple and the angle
derived from its exact squared Bragg sine. -/
theorem calcReflection_some (M : NumericModel) (st : CrystalStructure)
    (pairs : List (Site × Coeffs)) (lam : ℚ) (t : Triple) (r : Reflection)
    (h : calcReflection M st pairs lam t = some r) :
    r.hkl = t ∧ r.twoTheta = M.twoThetaDeg (lam ^ 2 * gNorm st t / 4) ∧
      lam ^ 2 * gNorm st t / 4 ≤ 1 := by
  by_cases hcond : 1 < lam ^ 2 * gNorm st t / 4
  · simp [calcReflection, hcond] at h
  · simp only [calcReflection, if_neg hcond, Option.some.injEq] at h
    subst h
    exact ⟨rfl, rfl, not_lt.1 hcond⟩

/-- A geometrically inaccessible candidate is dropped, not an error. -/
theorem calcReflection_none (M : NumericModel) (st : CrystalStructure)
    (pairs : List (Site × Coeffs)) (lam : ℚ) (t : Triple)
    (h4 : 4 < lam ^ 2 * gNorm st t) :
    calcReflection M st pairs lam t = none := by
  have hcond : 1 < lam ^ 2 * gNorm st t / 4 := by linarith
  simp [calcReflection, hcond]

/-- The calculator never drops the Friedel inverse of an accepted
reflection, and assigns it the same angle. -/
theorem calcReflection_negT (M : NumericModel) (st : CrystalStructure)
    (pairs : List (Site × Coeffs)) (lam : ℚ) (t : Triple) (r : Reflection)
    (h : calcReflection M st pairs lam t = some r) :
    ∃ r2, calcReflection M st pairs lam (negT t) = some r2 ∧
      r2.twoTheta = r.twoTheta ∧ r2.hkl = negT t := by
  by_cases hcond : 1 < lam ^ 2 * gNorm st t / 4
  · simp [calcReflection, hcond] at h
  · cases h2 : calcReflection M st pairs lam (negT t) with
    | none =>
        exfalso
        have : ¬1 < lam ^ 2 * gNorm st (negT t) / 4 := by rw [gNorm_negT]; exact hcond
        simp [calcReflection, this] at h2
    | some r2 =>
        obtain ⟨ha, hb, _⟩ := calcReflection_some M st pairs lam (negT t) r2 h2
        obtain ⟨hc, hd, _⟩ := calcReflection_some M st pairs lam t r h
        refine ⟨r2, rfl, ?_, ha⟩
        rw [hb, hd, gNorm_negT]

/-- An accepted reflection has non-negative intensity. -/
theorem calcReflection_nonneg (M : NumericModel) (st : CrystalStructure)
    (pairs : List (Site × Coeffs)) (lam : ℚ) (t : Triple) (r : Reflection)
    (h : calcReflection M st pairs lam t = some r) :
    0 ≤ r.intensity := by
  by_cases hcond : 1 < lam ^ 2 * gNorm st t / 4
  · simp [calcReflection, hcond] at h
  · simp only [calcReflection, if_neg hcond, Option.some.injEq] at h
    subst h
    have hsinSq : 0 ≤ lam ^ 2 * gNorm st t / 4 := by
      have := gNorm_nonneg st t
      positivity
    refine mul_nonneg (by positivity) ?_
    refine div_nonneg (by positivity) ?_
    exact mul_nonneg hsinSq (M.sqrt_nonneg _)

/-- Membership in the accepted reflection list. -/
theorem reflections_mem (M : NumericModel) (st : CrystalStructure)
    (pairs : List (Site × Coeffs)) (lam tmax : ℚ) (r : Reflection) :
    r ∈ reflections M st pairs lam tmax ↔
      ∃ t ∈ enumerate M st lam tmax, calcReflection M st pairs lam t = some r :=
  List.mem_filterMap

/-- The accepted reflections' Miller triples form a sublist of the
candidate enumeration (hence inherit its distinctness). -/
theorem reflections_hkl_sublist (M : NumericModel) (st : CrystalStructure)
    (pairs : List (Site × Coeffs)) (lam tmax : ℚ) :
    ((reflections M st pairs lam tmax).map Reflection.hkl).Sublist
      (enumerate M st lam tmax) := by
  unfold reflections
  generalize enumerate M st lam tmax = l
  induction l with
  | nil => simp
  | cons c cs ih =>
      cases h : calcReflection M st pairs lam c with
      | none =>
          rw [List.filterMap_cons_none h]
          exact ih.cons c
      | some r =>
          rw [List.filterMap_cons_some h]
          have : r.hkl = c := (calcReflection_some M st pairs lam c r h).1
          rw [List.map_cons, this]
          exact ih.cons₂ c

/-! ### The aggregator -/

/-- The angle-sorted reflection list is sorted. -/
theorem insertionSort_pairwise (refls : List Reflection) :
    (List.insertionSort angleLE refls).Pairwise angleLE :=
  List.sorted_insertionSort angleLE refls

/-- Requesting scaling rescales the unscaled aggregate. -/
theorem aggregate_true_eq (refls : List Reflection) (tmin tmax tol : ℚ) :
    aggregate refls tmin tmax tol true =
      rescale (aggregate refls tmin tmax tol false) := by
  simp [aggregate]

/-- Every aggregated peak is a merged peak (same angle and index list)
whose angle lies in the requested range. -/
theorem aggregate_mem (refls : List Reflection) (tmin tmax tol : ℚ) (scaled : Bool)
    (p : DiffractionPeak) (hp : p ∈ aggregate refls tmin tmax tol scaled) :
    ∃ q ∈ mergeSorted tol (List.insertionSort angleLE refls),
      q.hkls = p.hkls ∧ q.twoTheta = p.twoTheta ∧
      tmin ≤ p.twoTheta ∧ p.twoTheta ≤ tmax := by
  cases scaled with
  | false =>
      simp only [aggregate, Bool.false_eq_true, if_neg (by simp : ¬False)] at hp
      obtain ⟨hmem, hcond⟩ := List.mem_filter.1 hp
      obtain ⟨hc1, hc2⟩ := of_decide_eq_true hcond
      exact ⟨p, hmem, rfl, rfl, hc1, hc2⟩
  | true =>
      rw [aggregate_true_eq refls tmin tmax tol] at hp
      simp only [rescale] at hp
      obtain ⟨q0, hq0, hq0p⟩ := List.mem_map.1 hp
      simp only [aggregate, Bool.false_eq_true, if_neg (by simp : ¬False)] at hq0
      obtain ⟨hmem, hcond⟩ := List.mem_filter.1 hq0
      obtain ⟨hc1, hc2⟩ := of_decide_eq_true hcond
      refine ⟨q0, hmem, ?_, ?_, ?_, ?_⟩
      · rw [← hq0p]
      · rw [← hq0p]
      · rw [← hq0p]; exact hc1
      · rw [← hq0p]; exact hc2

/-- The maximum intensity of a peak list is non-negative. -/
theorem maxIntensity_nonneg (ps : List DiffractionPeak) : 0 ≤ maxIntensity ps := by
  induction ps with
  | nil => simp [maxIntensity]
  | cons p ps ih =>
      simp only [maxIntensity, List.foldr_cons] at ih ⊢
      exact le_trans ih (le_max_right _ _)

/-- Scaling every intensity by a non-negative factor scales the maximum. -/
theorem maxIntensity_scale (ps : List DiffractionPeak) (c : ℚ) (hc : 0 ≤ c) :
    maxIntensity (ps.map (fun p => ⟨p.twoTheta, p.intensity * c, p.hkls⟩)) =
      maxIntensity ps * c := by
  induction ps with
  | nil => simp [maxIntensity]
  | cons p ps ih =>
      simp only [maxIntensity, List.map_cons, List.foldr_cons] at ih ⊢
      rw [ih, max_mul_of_nonneg _ _ hc]

/-- The rescaling map, written with the scale factor pulled out. -/
theorem rescale_eq (ps : List DiffractionPeak) :
    rescale ps =
      ps.map (fun p => ⟨p.twoTheta, p.intensity * (100 / maxIntensity ps), p.hkls⟩) := by
  simp [rescale, mul_div_assoc]

/-- Rescaling a peak list with positive maximum makes the maximum exactly
100. -/
theorem maxIntensity_rescale (ps : List DiffractionPeak)
    (hpos : 0 < maxIntensity ps) : maxIntensity (rescale ps) = 100 := by
  rw [rescale_eq, maxIntensity_scale _ _ (by positivity)]
  field_simp

/-- Aggregated peaks of non-negative reflections have non-negative
intensity and a non-empty index list. -/
theorem aggregate_nonneg (refls : List Reflection) (tmin tmax tol : ℚ) (scaled : Bool)
    (hnn : ∀ r ∈ refls, 0 ≤ r.intensity) :
    ∀ p ∈ aggregate refls tmin tmax tol scaled, 0 ≤ p.intensity ∧ p.hkls ≠ [] := by
  have hnn2 : ∀ r ∈ List.insertionSort angleLE refls, 0 ≤ r.intensity := by
    intro r hr
    exact hnn r ((List.perm_insertionSort angleLE refls).mem_iff.1 hr)
  have hmerged := mergeSorted_nonneg tol (List.insertionSort angleLE refls) hnn2
  intro p hp
  cases scaled with
  | false =>
      simp only [aggregate, Bool.false_eq_true, if_neg (by simp : ¬False)] at hp
      exact hmerged p (List.mem_filter.1 hp).1
  | true =>
      rw [aggregate_true_eq, rescale_eq] at hp
      obtain ⟨q0, hq0, hq0p⟩ := List.mem_map.1 hp
      simp only [aggregate, Bool.false_eq_true, if_neg (by simp : ¬False)] at hq0
      have hq := hmerged q0 (List.mem_filter.1 hq0).1
      constructor
      · rw [← hq0p]
        have h100 : (0 : ℚ) ≤ 100 / maxIntensity (aggregate refls tmin tmax tol false) :=
          div_nonneg (by norm_num) (maxIntensity_nonneg _)
        exact mul_nonneg hq.1 h100
      · rw [← hq0p]
        exact hq.2

/-- Aggregated peaks are pairwise separated by at least the tolerance (in
particular strictly ascending when the tolerance is positive). -/
theorem aggregate_pairwise (refls : List Reflection) (tmin tmax tol : ℚ)
    (scaled : Bool) (htol : 0 ≤ tol) :
    (aggregate refls tmin tmax tol scaled).Pairwise
      (fun p q => p.twoTheta + tol ≤ q.twoTheta) := by
  have hmerged := mergeSorted_pairwise tol htol
    (List.insertionSort angleLE refls) (insertionSort_pairwise refls)
  have hfiltered : ((mergeSorted tol (List.insertionSort angleLE refls)).filter
      (fun p => decide (tmin ≤ p.twoTheta ∧ p.twoTheta ≤ tmax))).Pairwise
        (fun p q => p.twoTheta + tol ≤ q.twoTheta) :=
    hmerged.sublist (List.filter_sublist _)
  cases scaled with
  | false =>
      simp only [aggregate, Bool.false_eq_true, if_neg (by simp : ¬False)]
      exact hfiltered
  | true =>
      rw [aggregate_true_eq, rescale_eq]
      refine List.pairwise_map.2 ?_
      simp only [aggregate, Bool.false_eq_true, if_neg (by simp : ¬False)]
      exact hfiltered

/-- The merged peaks of a duplicate-free reflection list have pairwise
disjoint Miller-index lists. -/
theorem mergeSorted_disjoint (tol : ℚ) (l : List Reflection)
    (hnd : (l.map Reflection.hkl).Nodup) :
    (mergeSorted tol l).Pairwise
      (fun p q => List.Disjoint p.hkls q.hkls) := by
  have hflat : ((mergeSorted tol l).map DiffractionPeak.hkls).flatten.Nodup := by
    rw [mergeSorted_flatten]
    exact hnd
  have := (List.nodup_flatten.1 hflat).2
  exact List.pairwise_map.1 this

/-- Every Miller triple of an aggregated peak comes from an accepted
reflection. -/
theorem aggregate_hkl_mem (refls : List Reflection) (tmin tmax tol : ℚ)
    (scaled : Bool) (p : DiffractionPeak) (hp : p ∈ aggregate refls tmin tmax tol scaled)
    (t : Triple) (ht : t ∈ p.hkls) : t ∈ refls.map Reflection.hkl := by
  obtain ⟨q, hq, hqh, _, _, _⟩ := aggregate_mem refls tmin tmax tol scaled p hp
  rw [← hqh] at ht
  have : t ∈ ((mergeSorted tol (List.insertionSort angleLE refls)).map
      DiffractionPeak.hkls).flatten :=
    List.mem_flatten.2 ⟨q.hkls, List.mem_map_of_mem _ hq, ht⟩
  rw [mergeSorted_flatten] at this
  exact (((List.perm_insertionSort angleLE refls).map Reflection.hkl).mem_iff).1 this

/-! ### The pattern builder -/

/-- Inversion: a successful call passed validation and returns the
aggregated pipeline output together with the call parameters. -/
theorem get_pattern_ok (M : NumericModel) (st : CrystalStructure)
    (wl : WavelengthInput) (tmin tmax : ℚ) (scaled : Bool) (pat : Pattern)
    (h : get_pattern M st wl tmin tmax scaled = .ok pat) :
    st.sites ≠ [] ∧ (0 < tmin ∧ tmin < tmax ∧ tmax < 180) ∧
    ∃ lam pairs, resolve wl = .ok lam ∧ pairCoeffs st.sites = .ok pairs ∧
      pat = ⟨aggregate (reflections M st pairs lam tmax) tmin tmax MERGE_TOL scaled,
             lam, tmin, tmax⟩ := by
  by_cases h1 : st.sites = []
  · simp [get_pattern, h1] at h
  by_cases h2 : 0 < tmin ∧ tmin < tmax ∧ tmax < 180
  · cases h3 : resolve wl with
    | error e => simp [get_pattern, h1, h2, h3] at h
    | ok lam =>
        cases h4 : pairCoeffs st.sites with
        | error e => simp [get_pattern, h1, h2, h3, h4] at h
        | ok pairs =>
            simp only [get_pattern, if_neg h1, if_neg (not_not_intro h2), h3, h4,
              Except.ok.injEq] at h
            exact ⟨h1, h2, lam, pairs, rfl, rfl, h.symm⟩
  · simp [get_pattern, h1, h2] at h

/-- Construction: once validation passes, the call succeeds and returns
the aggregated pipeline output. -/
theorem get_pattern_build (M : NumericModel) (st : CrystalStructure)
    (wl : WavelengthInput) (tmin tmax : ℚ) (scaled : Bool) (lam : ℚ)
    (pairs : List (Site × Coeffs))
    (h1 : st.sites ≠ []) (h2 : 0 < tmin ∧ tmin < tmax ∧ tmax < 180)
    (h3 : resolve wl = .ok lam) (h4 : pairCoeffs st.sites = .ok pairs) :
    get_pattern M st wl tmin tmax scaled =
      .ok ⟨aggregate (reflections M st pairs lam tmax) tmin tmax MERGE_TOL scaled,
           lam, tmin, tmax⟩ := by
  simp [get_pattern, h1, h2, h3, h4]

/-- Coefficient pairing fails with `UnsupportedElement` (for some element
that is indeed missing) whenever any site's element is missing. -/
theorem pairCoeffs_error (sites : List Site) (s : Site) (hs : s ∈ sites)
    (hmiss : lookupCoeffs s.element = none) :
    ∃ el, pairCoeffs sites = .error (.UnsupportedElement el) ∧
      lookupCoeffs el = none := by
  induction sites with
  | nil => simp at hs
  | cons a rest ih =>
      cases h : lookupCoeffs a.element with
      | none => exact ⟨a.element, by simp [pairCoeffs, h], h⟩
      | some cf =>
          have hsrest : s ∈ rest := by
            rcases List.mem_cons.1 hs with h2 | h2
            · exfalso
              rw [h2] at hmiss
              rw [hmiss] at h
              cases h
            · exact h2
          obtain ⟨el, herr, hel⟩ := ih hsrest
          exact ⟨el, by simp [pairCoeffs, h, herr], hel⟩

/-- The non-negativity of every accepted reflection's intensity, for any
valid numeric model. -/
theorem reflections_nonneg (M : NumericModel) (st : CrystalStructure)
    (pairs : List (Site × Coeffs)) (lam tmax : ℚ) :
    ∀ r ∈ reflections M st pairs lam tmax, 0 ≤ r.intensity := by
  intro r hr
  obtain ⟨t, _, hcr⟩ := (reflections_mem M st pairs lam tmax r).1 hr
  exact calcReflection_nonneg M st pairs lam t r hcr

/-- The accepted reflections carry pairwise distinct Miller triples. -/
theorem reflections_hkl_nodup (M : NumericModel) (st : CrystalStructure)
    (pairs : List (Site × Coeffs)) (lam tmax : ℚ) :
    ((reflections M st pairs lam tmax).map Reflection.hkl).Nodup :=
  (enumerate_nodup M st lam tmax).sublist
    (reflections_hkl_sublist M st pairs lam tmax)

/-! ### The claims -/

/-- C1: for every Pattern returned by `get_pattern`, the peaks are sorted
strictly ascending by two-theta angle, and no two distinct peaks have
angles that differ by less than the merge tolerance. -/
theorem claim_C1 (M : NumericModel) (st : CrystalStructure)
    (wl : WavelengthInput) (tmin tmax : ℚ) (scaled : Bool) (pat : Pattern)
    (h : get_pattern M st wl tmin tmax scaled = .ok pat) :
    pat.peaks.Pairwise
      (fun p q => p.twoTheta < q.twoTheta ∧
        p.twoTheta + MERGE_TOL ≤ q.twoTheta) := by
  obtain ⟨_, _, lam, pairs, _, _, hpat⟩ :=
    get_pattern_ok M st wl tmin tmax scaled pat h
  subst hpat
  have hagg := aggregate_pairwise (reflections M st pairs lam tmax) tmin tmax
    MERGE_TOL scaled (by norm_num [MERGE_TOL])
  refine hagg.imp ?_
  intro p q hpq
  have htol : (0 : ℚ) < MERGE_TOL := by norm_num [MERGE_TOL]
  exact ⟨by linarith, hpq⟩

/-- C1 witness: a concrete successful call whose ordering invariant is
given by the claim theorem. -/
theorem claim_C1_witness :
    get_pattern Mwit stWit (.value 1) (1 / 8) 150 true = .ok patWitS ∧
    patWitS.peaks.Pairwise
      (fun p q => p.twoTheta < q.twoTheta ∧
        p.twoTheta + MERGE_TOL ≤ q.twoTheta) :=
  ⟨get_pattern_wit_true,
   claim_C1 Mwit stWit (.value 1) (1 / 8) 150 true patWitS get_pattern_wit_true⟩

/-- C2 counterexample: a concrete call with `scaled` true whose returned
peak list is non-empty but whose maximum intensity is 0, not 100 — a
systematic absence makes every raw intensity exactly zero, so rescaling
by the (zero) maximum cannot reach 100 and the claim as frozen fails. -/
theorem claim_C2_counterexample :
    get_pattern Mzero stZero (.value 1) (1 / 8) 150 true = .ok patZeroS ∧
    patZeroS.peaks ≠ [] ∧ maxIntensity patZeroS.peaks ≠ 100 := by
  refine ⟨?_, by simp [patZeroS], ?_⟩
  · norm_num [get_pattern, resolve, pairCoeffs, lookupCoeffs, SCATTERING_PARAMS,
      aggregate, reflections, enumerate, axisBound, hklRange, gNorm, recipPoint,
      dot, cross, smul, vadd, calcReflection, formFactor, phase, mergeSorted,
      rescale, maxIntensity, MERGE_TOL, Mzero, stZero, angleLE,
      List.insertionSort, List.orderedInsert, List.range_succ, List.lookup,
      patZeroS, List.filterMap_cons, List.filter_cons, List.product,
      decide_eq_true_eq]
    intro hcontra
    simp at hcontra
  · simp only [patZeroS, maxIntensity, List.foldr_cons, List.foldr_nil]
    norm_num

/-- C2 (amended): with `scaled` true, whenever the same call's unscaled
result attains a positive maximum raw intensity (the claim as frozen
asked only for non-emptiness, but a non-empty all-zero-intensity result
refutes that version), the maximum returned intensity is exactly 100, the
scaled peaks are the rescaling of the same call's unscaled peaks (which
stay in raw units), and all pairwise intensity ratios agree with the
unscaled result (stated multiplicatively). -/
theorem claim_C2 (M : NumericModel) (st : CrystalStructure)
    (wl : WavelengthInput) (tmin tmax : ℚ) (patS patU : Pattern)
    (hs : get_pattern M st wl tmin tmax true = .ok patS)
    (hu : get_pattern M st wl tmin tmax false = .ok patU)
    (hpos : 0 < maxIntensity patU.peaks) :
    maxIntensity patS.peaks = 100 ∧
    patS.peaks = rescale patU.peaks ∧
    patS.peaks.length = patU.peaks.length ∧
    ∀ (i j : ℕ) (hiu : i < patU.peaks.length) (hju : j < patU.peaks.length)
      (his : i < patS.peaks.length) (hjs : j < patS.peaks.length),
      (patS.peaks.get ⟨i, his⟩).intensity * (patU.peaks.get ⟨j, hju⟩).intensity =
      (patS.peaks.get ⟨j, hjs⟩).intensity * (patU.peaks.get ⟨i, hiu⟩).intensity := by
  obtain ⟨_, _, lamS, pairsS, h3S, h4S, hpatS⟩ :=
    get_pattern_ok M st wl tmin tmax true patS hs
  obtain ⟨_, _, lamU, pairsU, h3U, h4U, hpatU⟩ :=
    get_pattern_ok M st wl tmin tmax false patU hu
  rw [h3U] at h3S
  rw [h4U] at h4S
  obtain ⟨rfl⟩ : lamS = lamU := by cases h3S; rfl
  obtain ⟨rfl⟩ : pairsS = pairsU := by cases h4S; rfl
  have hSU : patS.peaks = rescale patU.peaks := by
    rw [hpatS, hpatU]
    exact aggregate_true_eq _ tmin tmax MERGE_TOL
  refine ⟨?_, hSU, ?_, ?_⟩
  · rw [hSU]
    exact maxIntensity_rescale patU.peaks hpos
  · rw [hSU, rescale_eq, List.length_map]
  · intro i j hiu hju his hjs
    have hmap : patS.peaks = patU.peaks.map
        (fun p => ⟨p.twoTheta, p.intensity * (100 / maxIntensity patU.peaks),
          p.hkls⟩) := by
      rw [hSU, rescale_eq]
    have hgi : patS.peaks.get ⟨i, his⟩ =
        ⟨(patU.peaks.get ⟨i, hiu⟩).twoTheta,
         (patU.peaks.get ⟨i, hiu⟩).intensity * (100 / maxIntensity patU.peaks),
         (patU.peaks.get ⟨i, hiu⟩).hkls⟩ := by
      simp only [List.get_eq_getElem]
      rw [List.getElem_of_eq hmap his, List.getElem_map]
    have hgj : patS.peaks.get ⟨j, hjs⟩ =
        ⟨(patU.peaks.get ⟨j, hju⟩).twoTheta,
         (patU.peaks.get ⟨j, hju⟩).intensity * (100 / maxIntensity patU.peaks),
         (patU.peaks.get ⟨j, hju⟩).hkls⟩ := by
      simp only [List.get_eq_getElem]
      rw [List.getElem_of_eq hmap hjs, List.getElem_map]
    rw [hgi, hgj]
    ring

/-- C2 witness: the fixture call, scaled and unscaled, with the amended
claim theorem's conclusions at it. -/
theorem claim_C2_witness :
    maxIntensity patWitS.peaks = 100 ∧ patWitS.peaks = rescale patWitU.peaks := by
  have h := claim_C2 Mwit stWit (.value 1) (1 / 8) 150 patWitS patWitU
    get_pattern_wit_true get_pattern_wit_false
    (by simp only [patWitU, maxIntensity, List.foldr_cons, List.foldr_nil]
        rw [max_eq_left (by norm_num)]
        norm_num)
  exact ⟨h.1, h.2.1⟩

/-- C3: every peak of a successfully returned Pattern has its two-theta
angle inside the closed requested range. -/
theorem claim_C3 (M : NumericModel) (st : CrystalStructure)
    (wl : WavelengthInput) (tmin tmax : ℚ) (scaled : Bool) (pat : Pattern)
    (h : get_pattern M st wl tmin tmax scaled = .ok pat) :
    ∀ p ∈ pat.peaks, tmin ≤ p.twoTheta ∧ p.twoTheta ≤ tmax := by
  obtain ⟨_, _, lam, pairs, _, _, hpat⟩ :=
    get_pattern_ok M st wl tmin tmax scaled pat h
  subst hpat
  intro p hp
  obtain ⟨q, _, _, _, hc1, hc2⟩ :=
    aggregate_mem (reflections M st pairs lam tmax) tmin tmax MERGE_TOL scaled p hp
  exact ⟨hc1, hc2⟩

/-- C3 witness: range containment at the concrete fixture call. -/
theorem claim_C3_witness :
    get_pattern Mwit stWit (.value 1) (1 / 8) 150 true = .ok patWitS ∧
    ∀ p ∈ patWitS.peaks, 1 / 8 ≤ p.twoTheta ∧ p.twoTheta ≤ 150 :=
  ⟨get_pattern_wit_true,
   claim_C3 Mwit stWit (.value 1) (1 / 8) 150 true patWitS get_pattern_wit_true⟩

/-- C4: the builder validates before any numerical work — an empty site
list fails with `EmptyStructure`, malformed angular bounds fail with
`InvalidRange`; in particular `(50, 10)` fails with `InvalidRange` and an
empty site list fails with `EmptyStructure`; validation failures do not
depend on the numeric model (no numerical work is reached). -/
theorem claim_C4 :
    (∀ (M : NumericModel) (st : CrystalStructure) (wl : WavelengthInput)
        (tmin tmax : ℚ) (scaled : Bool), st.sites = [] →
        get_pattern M st wl tmin tmax scaled = .error .EmptyStructure) ∧
    (∀ (M : NumericModel) (st : CrystalStructure) (wl : WavelengthInput)
        (tmin tmax : ℚ) (scaled : Bool), st.sites ≠ [] →
        ¬(0 < tmin ∧ tmin < tmax ∧ tmax < 180) →
        get_pattern M st wl tmin tmax scaled = .error .InvalidRange) ∧
    (∀ (M : NumericModel) (wl : WavelengthInput) (scaled : Bool),
        get_pattern M stWit wl 50 10 scaled = .error .InvalidRange) ∧
    (∀ (M : NumericModel) (wl : WavelengthInput) (tmin tmax : ℚ) (scaled : Bool),
        get_pattern M stEmpty wl tmin tmax scaled = .error .EmptyStructure) ∧
    (∀ (M M2 : NumericModel) (st : CrystalStructure) (wl : WavelengthInput)
        (tmin tmax : ℚ) (scaled : Bool),
        st.sites = [] ∨ ¬(0 < tmin ∧ tmin < tmax ∧ tmax < 180) →
        get_pattern M st wl tmin tmax scaled =
          get_pattern M2 st wl tmin tmax scaled) := by
  have hempty : ∀ (M : NumericModel) (st : CrystalStructure) (wl : WavelengthInput)
      (tmin tmax : ℚ) (scaled : Bool), st.sites = [] →
      get_pattern M st wl tmin tmax scaled = .error .EmptyStructure := by
    intro M st wl tmin tmax scaled h
    simp [get_pattern, h]
  have hrange : ∀ (M : NumericModel) (st : CrystalStructure) (wl : WavelengthInput)
      (tmin tmax : ℚ) (scaled : Bool), st.sites ≠ [] →
      ¬(0 < tmin ∧ tmin < tmax ∧ tmax < 180) →
      get_pattern M st wl tmin tmax scaled = .error .InvalidRange := by
    intro M st wl tmin tmax scaled h1 h2
    simp [get_pattern, h1, h2]
  refine ⟨hempty, hrange, ?_, ?_, ?_⟩
  · intro M wl scaled
    exact hrange M stWit wl 50 10 scaled (by simp [stWit]) (by norm_num)
  · intro M wl tmin tmax scaled
    exact hempty M stEmpty wl tmin tmax scaled rfl
  · intro M M2 st wl tmin tmax scaled h
    rcases h with h | h
    · rw [hempty M st wl tmin tmax scaled h, hempty M2 st wl tmin tmax scaled h]
    · by_cases h1 : st.sites = []
      · rw [hempty M st wl tmin tmax scaled h1, hempty M2 st wl tmin tmax scaled h1]
      · rw [hrange M st wl tmin tmax scaled h1 h, hrange M2 st wl tmin tmax scaled h1 h]

/-- C4 witness: the two concrete validation scenarios. -/
theorem claim_C4_witness :
    get_pattern Mwit stWit (.value 1) 50 10 true = .error .InvalidRange ∧
    get_pattern Mwit stEmpty (.value 1) (1 / 8) 150 true = .error .EmptyStructure :=
  ⟨claim_C4.2.2.1 Mwit (.value 1) true,
   claim_C4.2.2.2.1 Mwit (.value 1) (1 / 8) 150 true⟩

/-- C5: every entry of the radiation table resolves to its fixed positive
wavelength (CuKa to 1.54184 Å, MoKa to 0.70930 Å); an unrecognized name
fails with `UnknownWavelength`; a non-positive numeric value fails with
`InvalidWavelength`; a positive numeric value resolves to itself. -/
theorem claim_C5 :
    (∀ p ∈ WAVELENGTHS, resolve (.name p.1) = .ok p.2 ∧ 0 < p.2) ∧
    resolve (.name "CuKa") = .ok (154184 / 100000) ∧
    resolve (.name "MoKa") = .ok (70930 / 100000) ∧
    resolve (.name "Unobtainium") = .error .UnknownWavelength ∧
    (∀ q : ℚ, q ≤ 0 → resolve (.value q) = .error .InvalidWavelength) ∧
    (∀ q : ℚ, 0 < q → resolve (.value q) = .ok q) := by
  refine ⟨?_, rfl, rfl, rfl, ?_, ?_⟩
  · intro p hp
    fin_cases hp <;> exact ⟨rfl, by norm_num⟩
  · intro q hq
    simp [resolve, hq]
  · intro q hq
    simp [resolve, not_le.2 hq]

/-- C5 witness: the concrete numeric scenarios −1.0 and 2. -/
theorem claim_C5_witness :
    resolve (.value (-1)) = .error .InvalidWavelength ∧
    resolve (.value 2) = .ok 2 :=
  ⟨claim_C5.2.2.2.2.1 (-1) (by norm_num),
   claim_C5.2.2.2.2.2 2 (by norm_num)⟩

/-- C6: a structure containing a site whose element has no scattering
coefficients fails with `UnsupportedElement` and returns no Pattern; the
reported element is indeed absent from the table (never defaulted). -/
theorem claim_C6 (M : NumericModel) (st : CrystalStructure)
    (wl : WavelengthInput) (tmin tmax : ℚ) (scaled : Bool) (lam : ℚ) (s : Site)
    (h1 : st.sites ≠ []) (h2 : 0 < tmin ∧ tmin < tmax ∧ tmax < 180)
    (h3 : resolve wl = .ok lam) (hs : s ∈ st.sites)
    (hmiss : lookupCoeffs s.element = none) :
    ∃ el, get_pattern M st wl tmin tmax scaled =
        .error (.UnsupportedElement el) ∧ lookupCoeffs el = none := by
  obtain ⟨el, herr, hel⟩ := pairCoeffs_error st.sites s hs hmiss
  exact ⟨el, by simp [get_pattern, h1, h2, h3, herr], hel⟩

/-- C6 witness: the concrete unsupported-element structure. -/
theorem claim_C6_witness :
    (⟨"Zz", 0, 0, 0, 1⟩ : Site) ∈ stBad.sites ∧
    lookupCoeffs "Zz" = none ∧
    ∃ el, get_pattern Mwit stBad (.value 1) (1 / 8) 150 false =
        .error (.UnsupportedElement el) ∧ lookupCoeffs el = none :=
  ⟨by simp [stBad], rfl,
   claim_C6 Mwit stBad (.value 1) (1 / 8) 150 false 1 ⟨"Zz", 0, 0, 0, 1⟩
     (by simp [stBad]) (by norm_num) (by norm_num [resolve]) (by simp [stBad]) rfl⟩

/-- C7: once validation passes, the call succeeds, and any candidate whose
Bragg condition is geometrically inaccessible (`λ/(2d) > 1`, i.e.
`λ²·(1/d²) > 4` exactly) is absent from the returned peaks. -/
theorem claim_C7 (M : NumericModel) (st : CrystalStructure)
    (wl : WavelengthInput) (tmin tmax : ℚ) (scaled : Bool) (lam : ℚ)
    (pairs : List (Site × Coeffs))
    (h1 : st.sites ≠ []) (h2 : 0 < tmin ∧ tmin < tmax ∧ tmax < 180)
    (h3 : resolve wl = .ok lam) (h4 : pairCoeffs st.sites = .ok pairs) :
    ∃ pat, get_pattern M st wl tmin tmax scaled = .ok pat ∧
      ∀ t : Triple, 4 < lam ^ 2 * gNorm st t →
        ∀ p ∈ pat.peaks, t ∉ p.hkls := by
  refine ⟨_, get_pattern_build M st wl tmin tmax scaled lam pairs h1 h2 h3 h4, ?_⟩
  intro t ht p hp htp
  have hmem := aggregate_hkl_mem (reflections M st pairs lam tmax) tmin tmax
    MERGE_TOL scaled p hp t htp
  obtain ⟨r, hr, hrt⟩ := List.mem_map.1 hmem
  obtain ⟨c, _, hcr⟩ := (reflections_mem M st pairs lam tmax r).1 hr
  have hct : c = t := by
    rw [← (calcReflection_some M st pairs lam c r hcr).1, hrt]
  rw [hct, calcReflection_none M st pairs lam t ht] at hcr
  cases hcr

/-- C7 witness: a concrete validated call together with the claim
theorem's conclusion at it. -/
theorem claim_C7_witness :
    stWit.sites ≠ [] ∧ resolve (.value 1) = .ok 1 ∧
    pairCoeffs stWit.sites = .ok pairsWitH ∧
    ∃ pat, get_pattern Mwit stWit (.value 1) (1 / 8) 150 false = .ok pat ∧
      ∀ t : Triple, 4 < (1 : ℚ) ^ 2 * gNorm stWit t →
        ∀ p ∈ pat.peaks, t ∉ p.hkls :=
  ⟨by simp [stWit], by norm_num [resolve], rfl,
   claim_C7 Mwit stWit (.value 1) (1 / 8) 150 false 1 pairsWitH
     (by simp [stWit]) (by norm_num) (by norm_num [resolve]) rfl⟩

/-- C8: the enumerator keeps a reflection and its Friedel inverse
(−h,−k,−l) as distinct candidates, and in the returned Pattern of a
centrosymmetric structure the two end up merged into the same peak: every
peak containing (h,k,l) also contains (−h,−k,−l). -/
theorem claim_C8 :
    (∀ (M : NumericModel) (st : CrystalStructure) (lam tmax : ℚ) (t : Triple),
        t ∈ enumerate M st lam tmax →
          negT t ∈ enumerate M st lam tmax ∧ negT t ≠ t) ∧
    (∀ (M : NumericModel) (st : CrystalStructure) (wl : WavelengthInput)
        (tmin tmax : ℚ) (scaled : Bool) (pat : Pattern),
        get_pattern M st wl tmin tmax scaled = .ok pat →
        Centrosymmetric st.sites →
        ∀ p ∈ pat.peaks, ∀ t ∈ p.hkls, negT t ∈ p.hkls) := by
  constructor
  · exact fun M st lam tmax t ht => enumerate_negT M st lam tmax t ht
  · intro M st wl tmin tmax scaled pat h hcentro p hp t ht
    obtain ⟨_, _, lam, pairs, _, _, hpat⟩ :=
      get_pattern_ok M st wl tmin tmax scaled pat h
    subst hpat
    obtain ⟨q, hq, hqh, _, _, _⟩ :=
      aggregate_mem (reflections M st pairs lam tmax) tmin tmax MERGE_TOL scaled p hp
    rw [← hqh] at ht ⊢
    have ht2 : t ∈ (List.insertionSort angleLE
        (reflections M st pairs lam tmax)).map Reflection.hkl := by
      have hflat : t ∈ ((mergeSorted MERGE_TOL (List.insertionSort angleLE
          (reflections M st pairs lam tmax))).map DiffractionPeak.hkls).flatten :=
        List.mem_flatten.2 ⟨q.hkls, List.mem_map_of_mem _ hq, ht⟩
      rwa [mergeSorted_flatten] at hflat
    obtain ⟨r, hrs, hrt⟩ := List.mem_map.1 ht2
    have hrrefl : r ∈ reflections M st pairs lam tmax :=
      (List.perm_insertionSort angleLE _).mem_iff.1 hrs
    obtain ⟨c, hcenum, hcr⟩ := (reflections_mem M st pairs lam tmax r).1 hrrefl
    have hct : c = t := by
      rw [← (calcReflection_some M st pairs lam c r hcr).1, hrt]
    subst hct
    obtain ⟨r2, hr2calc, hr2θ, hr2hkl⟩ := calcReflection_negT M st pairs lam c r hcr
    have hr2refl : r2 ∈ reflections M st pairs lam tmax :=
      (reflections_mem M st pairs lam tmax r2).2
        ⟨negT c, (enumerate_negT M st lam tmax c hcenum).1, hr2calc⟩
    have hr2s : r2 ∈ List.insertionSort angleLE (reflections M st pairs lam tmax) :=
      (List.perm_insertionSort angleLE _).mem_iff.2 hr2refl
    obtain ⟨q2, hq2, hq2a, hq2b⟩ :=
      mergeSorted_same_angle MERGE_TOL (by norm_num [MERGE_TOL]) _
        (insertionSort_pairwise _) r hrs r2 hr2s hr2θ.symm
    have hnd : ((List.insertionSort angleLE
        (reflections M st pairs lam tmax)).map Reflection.hkl).Nodup :=
      (((List.perm_insertionSort angleLE _).map Reflection.hkl).nodup_iff).2
        (reflections_hkl_nodup M st pairs lam tmax)
    have hdisj := mergeSorted_disjoint MERGE_TOL _ hnd
    have hqq : q = q2 := by
      by_contra hne
      exact (List.Pairwise.forall (fun a b hab => List.disjoint_symm hab)
        hdisj hq hq2 hne) ht (hrt ▸ hq2a)
    rw [hqq, ← hr2hkl]
    exact hq2b

/-- C8 witness: a concrete candidate, its inverse, and the merged peak of
the concrete centrosymmetric fixture call. -/
theorem claim_C8_witness :
    ((1, 0, 0) : Triple) ∈ enumerate Mwit stWit 1 150 ∧
    negT (1, 0, 0) ∈ enumerate Mwit stWit 1 150 ∧
    negT (1, 0, 0) ≠ ((1, 0, 0) : Triple) ∧
    Centrosymmetric stWit.sites ∧
    ∀ p ∈ patWitS.peaks, ∀ t ∈ p.hkls, negT t ∈ p.hkls := by
  have hmem : ((1, 0, 0) : Triple) ∈ enumerate Mwit stWit 1 150 := by
    norm_num [enumerate, axisBound, hklRange, gNorm, recipPoint, dot, cross, smul,
      vadd, Mwit, stWit, List.product, List.range_succ, List.mem_filter,
      decide_eq_true_eq]
  have hcentro : Centrosymmetric stWit.sites := by
    intro s hs
    simp only [stWit, List.mem_singleton] at hs
    subst hs
    exact ⟨_, by simp [stWit], rfl, rfl, by norm_num, by norm_num, by norm_num⟩
  obtain ⟨hneg, hdist⟩ := claim_C8.1 Mwit stWit 1 150 (1, 0, 0) hmem
  exact ⟨hmem, hneg, hdist, hcentro,
    claim_C8.2 Mwit stWit (.value 1) (1 / 8) 150 true patWitS
      get_pattern_wit_true hcentro⟩

/-- C9: every successful call returns peaks each carrying a two-theta
angle, a non-negative intensity, and a non-empty list of Miller triples
(angle, intensity and index list are bundled per record, so the three
sequences share one length by construction). -/
theorem claim_C9 (M : NumericModel) (st : CrystalStructure)
    (wl : WavelengthInput) (tmin tmax : ℚ) (scaled : Bool) (pat : Pattern)
    (h : get_pattern M st wl tmin tmax scaled = .ok pat) :
    ∀ p ∈ pat.peaks, 0 ≤ p.intensity ∧ p.hkls ≠ [] := by
  obtain ⟨_, _, lam, pairs, _, _, hpat⟩ :=
    get_pattern_ok M st wl tmin tmax scaled pat h
  subst hpat
  exact aggregate_nonneg (reflections M st pairs lam tmax) tmin tmax MERGE_TOL
    scaled (reflections_nonneg M st pairs lam tmax)

/-- C9 witness: the output contract at the concrete fixture call. -/
theorem claim_C9_witness :
    get_pattern Mwit stWit (.value 1) (1 / 8) 150 true = .ok patWitS ∧
    ∀ p ∈ patWitS.peaks, 0 ≤ p.intensity ∧ p.hkls ≠ [] :=
  ⟨get_pattern_wit_true,
   claim_C9 Mwit stWit (.value 1) (1 / 8) 150 true patWitS get_pattern_wit_true⟩

/-- C10: wavelength-name resolution is case-insensitive — names with the
same lower-casing resolve identically; in particular "Cuka" resolves like
"CuKa", to 1.54184 Å, rather than failing with UnknownWavelength. -/
theorem claim_C10 :
    (∀ s t : String, lowerStr s = lowerStr t →
        resolve (.name s) = resolve (.name t)) ∧
    resolve (.name "Cuka") = resolve (.name "CuKa") ∧
    resolve (.name "Cuka") = .ok (154184 / 100000) := by
  refine ⟨?_, rfl, rfl⟩
  intro s t hst
  simp only [resolve, lookupWavelength, hst]

/-- C10 witness: two further casing variants resolving identically. -/
theorem claim_C10_witness :
    lowerStr "CUKA" = lowerStr "cUkA" ∧
    resolve (.name "CUKA") = resolve (.name "cUkA") :=
  ⟨rfl, claim_C10.1 "CUKA" "cUkA" rfl⟩

end XRD
